import Mathlib

/-
Verification of the pattern-alignment-by-phase-search family of
echotorch/utils/utility_functions.py: align_pattern, pattern_interpolation,
find_pattern_interpolation and find_pattern_interpolation_threshold.

Modelling conventions.
* Samples are rationals (the source uses floating-point arrays).
* The source's distance is the Euclidean norm numpy.linalg.norm(a - b).
  The model carries its square, which is computable over the rationals;
  the square is strictly monotone on nonnegative reals, so every claim
  settled here (argmin selection, first-occurrence tie-breaks, ascending
  sorting, strict threshold comparison) is invariant under this change of
  scale, with thresholds read on the squared scale.
* scipy.interpolate.interp1d(kind=quadratic) is an external primitive the
  spec treats as a black box; it is abstracted as a function carried by
  each signal, evaluated on the same fractional grid the source builds
  with numpy.arange.
* Runtime exceptions of the source (scipy's rejection of fewer than three
  points, numpy.argmax on an empty array, Python's division by zero) are
  modelled as Except errors.
-/

namespace EchoTorch

/-- Failure modes of the alignment family: scipy refuses quadratic
interpolation on fewer than 3 points; numpy.argmax raises on an empty
array; Python raises on division by a zero count. -/
inductive UtilError where
  | insufficientData
  | emptyArgmax
  | zeroDivision
  deriving DecidableEq

/-- A one-dimensional signal: its original samples together with its
quadratic interpolant. Modelled from the spec: the interpolant produced by
scipy.interpolate.interp1d(kind=quadratic) is an external black box
("quadratic-interpolation primitive over (index, value) pairs ... consumed
as black boxes"), so it is carried abstractly as a function on ℚ. -/
structure Signal where
  samples : List ℚ
  interp : ℚ → ℚ

/-- The fractional evaluation grid numpy.arange(0, n - 1, 1/rate) for a
positive integer rate: the points k / rate for 0 ≤ k < (n - 1) * rate
(for integer rate, ceil((n-1)*rate) = (n-1)*rate points). -/
def interpGrid (n rate : ℕ) : List ℚ :=
  (List.range ((n - 1) * rate)).map (fun k : ℕ => (k : ℚ) / (rate : ℚ))

/-- Modelled from the spec: interp1d(np.arange(n), signal, kind=quadratic)
followed by evaluation on the fractional grid. scipy rejects fewer than 3
points for a quadratic spline ("fails if N < 3"); otherwise the abstract
interpolant f is evaluated on the grid. -/
def interpolate (f : ℚ → ℚ) (n rate : ℕ) : Except UtilError (List ℚ) :=
  if n < 3 then Except.error UtilError.insufficientData
  else Except.ok ((interpGrid n rate).map f)

/-- The interpolated signal of a Signal (the success value of interpolate). -/
def interpOf (s : Signal) (rate : ℕ) : List ℚ :=
  (interpGrid s.samples.length rate).map s.interp

/-- Squared Euclidean distance between two sample lists (the square of the
source's numpy.linalg.norm(a - b)). -/
def sqDist (a b : List ℚ) : ℚ :=
  ((a.zip b).map (fun q => (q.1 - q.2) ^ 2)).sum

/-- phase_matches / norm_phase_shift: for each shift in range(L - M) the
distance between the interpolated reference and the length-M window of the
interpolated generated signal starting at that shift (the source computes
norm(truth - window) in align_pattern and norm(window - pattern) in the
other entry points; the two agree). -/
def phaseDists (ti gi : List ℚ) : List ℚ :=
  (List.range (gi.length - ti.length)).map
    (fun s => sqDist ti ((gi.drop s).take ti.length))

/-- numpy.argmax: the index of the first occurrence of the maximum, i.e.
the first index whose value is ≥ every element of the list. -/
def argmax (l : List ℚ) : ℕ :=
  l.findIdx (fun x => decide (∀ y ∈ l, y ≤ x))

/-- np.ceil(m / rate): the original-rate offset of an interpolated offset. -/
def coarsePhase (m rate : ℕ) : ℤ :=
  Int.ceil ((m : ℚ) / (rate : ℚ))

/-- gi[np.arange(m, m + rate * pl, rate)]: every rate-th sample of the
interpolated generated signal starting at offset m, pl samples in all
(numpy would raise on an out-of-range index; the in-bounds facts are proved
below, so the total getD with default 0 never pads). -/
def alignAt (gi : List ℚ) (pl rate m : ℕ) : List ℚ :=
  (List.range pl).map (fun k => gi.getD (m + k * rate) 0)

/-- align_pattern(interpolation_rate, truth_pattern, generated_pattern):
interpolate both signals, scan all phase shifts, pick argmax(-distances),
and return (max_ind, coarse_max_ind, generated_aligned). -/
def align_pattern (rate : ℕ) (truth generated : Signal) :
    Except UtilError (ℕ × ℤ × List ℚ) := do
  let ti ← interpolate truth.interp truth.samples.length rate
  let gi ← interpolate generated.interp generated.samples.length rate
  let dists := phaseDists ti gi
  if dists.isEmpty then Except.error UtilError.emptyArgmax
  else
    let m := argmax (dists.map (fun x => -x))
    Except.ok (m, coarsePhase m rate, alignAt gi truth.samples.length rate m)

/-- pattern_interpolation(p, y, interpolation_rate, error_measure): the same
search as align_pattern (generated signal interpolated first), returning
(generated_sample_aligned, original_phase, error_aligned). -/
def pattern_interpolation (rate : ℕ) (p y : Signal)
    (em : List ℚ → List ℚ → ℚ) : Except UtilError (List ℚ × ℤ × ℚ) := do
  let gi ← interpolate y.interp y.samples.length rate
  let pInt ← interpolate p.interp p.samples.length rate
  let dists := phaseDists pInt gi
  if dists.isEmpty then Except.error UtilError.emptyArgmax
  else
    let m := argmax (dists.map (fun x => -x))
    let aligned := alignAt gi p.samples.length rate m
    Except.ok (aligned, coarsePhase m rate, em aligned p.samples)

/-- best_matches: the pairs (norm_phase_shift[shift], shift) appended in
ascending shift order. -/
def matchPairs (d : List ℚ) : List (ℚ × ℕ) :=
  d.enum.map (fun q => (q.2, q.1))

/-- sorted(best_matches, key=tup[0]): Python's sorted is a stable sort by
the distance component; insertion sort keeps equal-key elements in their
original relative order. -/
def sortByDist (l : List (ℚ × ℕ)) : List (ℚ × ℕ) :=
  List.insertionSort (fun a b => a.1 ≤ b.1) l

/-- find_pattern_interpolation(p, y, interpolation_rate, n_matches,
error_measure): rank every candidate by distance (n_matches is accepted but
never read by the source), produce phases and error values in ranked order
and the mean error with the count started at 0. Python raises
ZeroDivisionError on the final division when there are no candidates. -/
def find_pattern_interpolation (rate : ℕ) (p y : Signal) (nMatches : ℕ)
    (em : List ℚ → List ℚ → ℚ) : Except UtilError (List ℤ × List ℚ × ℚ) := do
  let gi ← interpolate y.interp y.samples.length rate
  let pInt ← interpolate p.interp p.samples.length rate
  let dists := phaseDists pInt gi
  let best := sortByDist (matchPairs dists)
  let phases := best.map (fun q => coarsePhase q.2 rate)
  let norms := best.map (fun q => em (alignAt gi p.samples.length rate q.2) p.samples)
  if best.isEmpty then Except.error UtilError.zeroDivision
  else Except.ok (phases, norms, norms.sum / (norms.length : ℚ))

/-- find_pattern_interpolation_threshold(p, y, interpolation_rate,
threshold, error_measure): keep the pairs (shift, norm_phase_shift[shift])
with distance strictly below the threshold in ascending shift order,
produce phases and error values for them, the running mean whose count was
initialized to 1 instead of 0, and the raw full distance array. -/
def find_pattern_interpolation_threshold (rate : ℕ) (p y : Signal) (t : ℚ)
    (em : List ℚ → List ℚ → ℚ) :
    Except UtilError (List ℤ × List ℚ × ℚ × List ℚ) := do
  let gi ← interpolate y.interp y.samples.length rate
  let pInt ← interpolate p.interp p.samples.length rate
  let dists := phaseDists pInt gi
  let kept := dists.enum.filter (fun q => decide (q.2 < t))
  let phases := kept.map (fun q => coarsePhase q.1 rate)
  let norms := kept.map (fun q => em (alignAt gi p.samples.length rate q.1) p.samples)
  Except.ok (phases, norms, norms.sum / ((kept.length : ℚ) + 1), dists)

/-- The full distance scan shared by the four entry points: the distances
of the interpolated reference against every window of the interpolated
generated signal. -/
def searchDists (rate : ℕ) (p y : Signal) : List ℚ :=
  phaseDists (interpOf p rate) (interpOf y rate)

/-- int(np.argmax(-distances)): the phase shift the best-of selectors pick. -/
def bestShift (rate : ℕ) (p y : Signal) : ℕ :=
  argmax ((searchDists rate p y).map (fun x => -x))

/-- error_measure(generated_sample_aligned, p): the error value of the
Alignment Result at shift m. -/
def errOf (rate : ℕ) (p y : Signal) (em : List ℚ → List ℚ → ℚ) (m : ℕ) : ℚ :=
  em (alignAt (interpOf y rate) p.samples.length rate m) p.samples

/-- The retained (shift, distance) pairs of the threshold entry point. -/
def keptPairs (rate : ℕ) (p y : Signal) (t : ℚ) : List (ℕ × ℚ) :=
  (searchDists rate p y).enum.filter (fun q => decide (q.2 < t))

/-- sorted(best_matches): the (distance, shift) pairs of the ranking entry
point, stably sorted by distance. -/
def rankedPairs (rate : ℕ) (p y : Signal) : List (ℚ × ℕ) :=
  sortByDist (matchPairs (searchDists rate p y))

/-- A concrete reference pattern used to exercise the entry points: three
samples, constant-zero interpolant. -/
def demoTruth : Signal := ⟨[0, 0, 0], fun _ => 0⟩

/-- A concrete generated signal: six samples, constant-zero interpolant, so
all three phase-shift distances tie at zero. -/
def demoGen : Signal := ⟨[0, 1, 0, 1, 0, 1], fun _ => 0⟩

/-- A concrete signal whose interpolated length equals the reference's when
used as both arguments: the search space L - M is empty. -/
def demoEq : Signal := ⟨[0, 1, 2, 3], fun _ => 0⟩

/-- A concrete generated signal with distinct phase-shift distances: the
identity interpolant makes the window at shift s cost s² + (s+1)². -/
def demoRamp : Signal := ⟨[0, 1, 2, 3, 4, 5], fun q => q⟩

/-- A concrete two-sample signal: too short for quadratic interpolation. -/
def demoShort : Signal := ⟨[0, 1], fun _ => 0⟩

/-- Ranking order on (distance, shift) pairs: strictly smaller distance, or
equal distance and not-later shift. A stable ascending sort by distance of
pairs whose shifts are initially ascending is sorted for this order. -/
def leLex (a b : ℚ × ℕ) : Prop :=
  a.1 < b.1 ∨ (a.1 = b.1 ∧ a.2 ≤ b.2)

theorem length_interpGrid (n rate : ℕ) :
    (interpGrid n rate).length = (n - 1) * rate := by
  rw [interpGrid, List.length_map, List.length_range]

theorem length_interpOf (s : Signal) (rate : ℕ) :
    (interpOf s rate).length = (s.samples.length - 1) * rate := by
  simp [interpOf, length_interpGrid]

theorem interpolate_ok (f : ℚ → ℚ) (n rate : ℕ) (h : 3 ≤ n) :
    interpolate f n rate = Except.ok ((interpGrid n rate).map f) := by
  simp [interpolate, Nat.not_lt.mpr h]

theorem interpolate_signal_ok (s : Signal) (rate : ℕ) (h : 3 ≤ s.samples.length) :
    interpolate s.interp s.samples.length rate = Except.ok (interpOf s rate) :=
  interpolate_ok s.interp s.samples.length rate h

theorem length_phaseDists (ti gi : List ℚ) :
    (phaseDists ti gi).length = gi.length - ti.length := by
  simp [phaseDists]

theorem getD_phaseDists (ti gi : List ℚ) (s : ℕ) (h : s < gi.length - ti.length) :
    (phaseDists ti gi).getD s 0 = sqDist ti ((gi.drop s).take ti.length) := by
  rw [List.getD_eq_getElem _ _ (by rw [length_phaseDists]; exact h)]
  simp [phaseDists]

theorem argmax_spec (l : List ℚ) (h : 0 < l.length) :
    argmax l < l.length ∧
    (∀ j, j < l.length → l.getD j 0 ≤ l.getD (argmax l) 0) ∧
    (∀ j, j < argmax l → l.getD j 0 < l.getD (argmax l) 0) := by
  have hb : l.maximum ≠ ⊥ := List.maximum_ne_bot_of_length_pos h
  obtain ⟨M, hM⟩ := WithBot.ne_bot_iff_exists.mp hb
  have hMmem : M ∈ l := List.maximum_mem hM.symm
  have hMub : ∀ a ∈ l, a ≤ M := fun a ha => List.le_maximum_of_mem ha hM.symm
  have hex : ∃ x ∈ l, (fun x => decide (∀ y ∈ l, y ≤ x)) x = true :=
    ⟨M, hMmem, by simpa using hMub⟩
  have hlt : argmax l < l.length := List.findIdx_lt_length_of_exists hex
  have hAt : ∀ y ∈ l, y ≤ l.get ⟨argmax l, hlt⟩ := by
    have h0 := @List.findIdx_getElem ℚ (fun x => decide (∀ y ∈ l, y ≤ x)) l hlt
    simpa [argmax] using h0
  refine ⟨hlt, ?_, ?_⟩
  · intro j hj
    rw [List.getD_eq_getElem _ _ hj, List.getD_eq_getElem _ _ hlt]
    exact hAt _ (List.getElem_mem hj)
  · intro j hj
    have hjl : j < l.length := lt_trans hj hlt
    have hfalse :=
      @List.not_of_lt_findIdx ℚ (fun x => decide (∀ y ∈ l, y ≤ x)) l j hj
    have hnot : ¬ (∀ y ∈ l, y ≤ l.get ⟨j, hjl⟩) := by simpa using hfalse
    push_neg at hnot
    obtain ⟨y, hy, hylt⟩ := hnot
    rw [List.getD_eq_getElem _ _ hjl, List.getD_eq_getElem _ _ hlt]
    exact lt_of_lt_of_le hylt (hAt y hy)

theorem argmin_neg_spec (d : List ℚ) (h : 0 < d.length) :
    argmax (d.map (fun x => -x)) < d.length ∧
    (∀ j, j < d.length →
      d.getD (argmax (d.map (fun x => -x))) 0 ≤ d.getD j 0) ∧
    (∀ j, j < argmax (d.map (fun x => -x)) →
      d.getD (argmax (d.map (fun x => -x))) 0 < d.getD j 0) := by
  have hlen : (d.map (fun x => -x)).length = d.length := by simp
  have hgetD : ∀ j, j < d.length →
      (d.map (fun x => -x)).getD j 0 = -(d.getD j 0) := by
    intro j hj
    rw [List.getD_eq_getElem _ _ (by simpa using hj), List.getD_eq_getElem _ _ hj]
    simp
  obtain ⟨h1, h2, h3⟩ := argmax_spec (d.map (fun x => -x)) (by simpa using h)
  rw [hlen] at h1
  refine ⟨h1, ?_, ?_⟩
  · intro j hj
    have := h2 j (by simpa using hj)
    rw [hgetD j hj, hgetD _ h1] at this
    linarith
  · intro j hj
    have := h3 j hj
    rw [hgetD j (lt_trans hj h1), hgetD _ h1] at this
    linarith

theorem length_alignAt (gi : List ℚ) (pl rate m : ℕ) :
    (alignAt gi pl rate m).length = pl := by
  rw [alignAt, List.length_map, List.length_range]

theorem getD_alignAt (gi : List ℚ) (pl rate m k : ℕ) (hk : k < pl) :
    (alignAt gi pl rate m).getD k 0 = gi.getD (m + k * rate) 0 := by
  rw [List.getD_eq_getElem _ _ (by rw [length_alignAt]; exact hk)]
  simp [alignAt]

theorem alignAt_index_lt (L M pl rate m k : ℕ)
    (hM : M = (pl - 1) * rate) (hm : m < L - M) (hk : k < pl) :
    m + k * rate < L := by
  have hkr : k * rate ≤ (pl - 1) * rate :=
    Nat.mul_le_mul_right rate (by omega)
  omega

theorem enum_eq_range_map (d : List ℚ) :
    d.enum = (List.range d.length).map (fun i => (i, d.getD i 0)) := by
  apply List.ext_getElem
  · simp [List.enum_length]
  · intro n h1 h2
    have hn : n < d.length := by simpa [List.enum_length] using h1
    simp [List.getElem_enum, List.getElem?_eq_getElem hn]

theorem kept_eq (d : List ℚ) (t : ℚ) :
    d.enum.filter (fun q => decide (q.2 < t)) =
      ((List.range d.length).filter (fun i => decide (d.getD i 0 < t))).map
        (fun i => (i, d.getD i 0)) := by
  rw [enum_eq_range_map, List.filter_map]
  congr 1

theorem kept_map_fst (d : List ℚ) (t : ℚ) :
    (d.enum.filter (fun q => decide (q.2 < t))).map Prod.fst =
      (List.range d.length).filter (fun i => decide (d.getD i 0 < t)) := by
  rw [kept_eq, List.map_map]
  exact List.map_id _

theorem leLex_fst_le {a b : ℚ × ℕ} (h : leLex a b) : a.1 ≤ b.1 := by
  rcases h with h | ⟨h, _⟩
  · exact le_of_lt h
  · exact le_of_eq h

theorem leLex_of_fst_le_of_snd_lt {a b : ℚ × ℕ} (h1 : a.1 ≤ b.1)
    (h2 : a.2 < b.2) : leLex a b := by
  rcases lt_or_eq_of_le h1 with h | h
  · exact Or.inl h
  · exact Or.inr ⟨h, le_of_lt h2⟩

theorem orderedInsert_pairwise_leLex (x : ℚ × ℕ) (l : List (ℚ × ℕ))
    (hl : l.Pairwise leLex) (hx : ∀ y ∈ l, x.2 < y.2) :
    (List.orderedInsert (fun a b => a.1 ≤ b.1) x l).Pairwise leLex := by
  induction l with
  | nil => simp [List.orderedInsert]
  | cons y ys ih =>
    rw [List.pairwise_cons] at hl
    obtain ⟨hy, hys⟩ := hl
    simp only [List.orderedInsert]
    split_ifs with hr
    · refine List.Pairwise.cons ?_ (List.Pairwise.cons hy hys)
      intro z hz
      rcases List.mem_cons.mp hz with rfl | hz'
      · exact leLex_of_fst_le_of_snd_lt hr (hx _ (by simp))
      · exact leLex_of_fst_le_of_snd_lt
          (le_trans hr (leLex_fst_le (hy z hz'))) (hx z (by simp [hz']))
    · refine List.Pairwise.cons ?_ (ih hys (fun z hz => hx z (by simp [hz])))
      intro z hz
      rcases (List.mem_orderedInsert _).mp hz with rfl | hz'
      · exact Or.inl (lt_of_not_le hr)
      · exact hy z hz'

theorem sortByDist_pairwise (l : List (ℚ × ℕ))
    (hl : l.Pairwise (fun a b => a.2 < b.2)) :
    (sortByDist l).Pairwise leLex := by
  induction l with
  | nil => simp [sortByDist, List.insertionSort]
  | cons x xs ih =>
    rw [List.pairwise_cons] at hl
    obtain ⟨hx, hxs⟩ := hl
    simp only [sortByDist, List.insertionSort] at ih ⊢
    exact orderedInsert_pairwise_leLex x _ (ih hxs) (fun y hy =>
      hx y ((List.perm_insertionSort _ xs).mem_iff.mp hy))

theorem sortByDist_perm (l : List (ℚ × ℕ)) : (sortByDist l).Perm l :=
  List.perm_insertionSort _ l

theorem matchPairs_eq_range_map (d : List ℚ) :
    matchPairs d = (List.range d.length).map (fun i => (d.getD i 0, i)) := by
  rw [matchPairs, enum_eq_range_map, List.map_map]
  simp [Function.comp]

theorem length_matchPairs (d : List ℚ) : (matchPairs d).length = d.length := by
  rw [matchPairs_eq_range_map, List.length_map, List.length_range]

theorem matchPairs_pairwise (d : List ℚ) :
    (matchPairs d).Pairwise (fun a b => a.2 < b.2) := by
  rw [matchPairs_eq_range_map, List.pairwise_map]
  simpa using List.pairwise_lt_range d.length

theorem coarsePhase_eq_ceilDiv (m rate : ℕ) (h : 1 ≤ rate) :
    coarsePhase m rate = (((m + rate - 1) / rate : ℕ) : ℤ) := by
  have hr0 : 0 < rate := h
  set q := (m + rate - 1) / rate with hq
  have hA : q * rate ≤ m + rate - 1 := Nat.div_mul_le_self _ _
  have hB : m + rate - 1 < (q + 1) * rate := by
    rw [← Nat.div_lt_iff_lt_mul hr0]
    omega
  have hB' : m + rate - 1 < q * rate + rate := by
    rwa [Nat.succ_mul] at hB
  have h1 : m ≤ q * rate := by omega
  have h2 : q * rate < m + rate := by omega
  have hrq : (0 : ℚ) < (rate : ℚ) := by exact_mod_cast hr0
  rw [coarsePhase, Int.ceil_eq_iff]
  have hcast1 : (q : ℚ) * (rate : ℚ) < (m : ℚ) + (rate : ℚ) := by
    exact_mod_cast h2
  have hcast2 : (m : ℚ) ≤ (q : ℚ) * (rate : ℚ) := by exact_mod_cast h1
  constructor
  · push_cast
    rw [lt_div_iff₀ hrq, show ((q : ℚ) - 1) * (rate : ℚ)
        = (q : ℚ) * (rate : ℚ) - (rate : ℚ) by ring]
    linarith
  · push_cast
    rw [div_le_iff₀ hrq]
    linarith

theorem sqDist_nonneg (a b : List ℚ) : 0 ≤ sqDist a b := by
  apply List.sum_nonneg
  intro x hx
  obtain ⟨q, hq, hxe⟩ := List.mem_map.mp hx
  rw [← hxe]
  positivity

theorem phaseDists_mem_nonneg (ti gi : List ℚ) (x : ℚ)
    (hx : x ∈ phaseDists ti gi) : 0 ≤ x := by
  rw [phaseDists] at hx
  obtain ⟨s, hs, hxe⟩ := List.mem_map.mp hx
  rw [← hxe]
  exact sqDist_nonneg _ _

theorem phaseDists_getD_nonneg (ti gi : List ℚ) (i : ℕ) :
    0 ≤ (phaseDists ti gi).getD i 0 := by
  by_cases hi : i < (phaseDists ti gi).length
  · rw [List.getD_eq_getElem _ _ hi]
    exact phaseDists_mem_nonneg ti gi _ (List.getElem_mem hi)
  · rw [List.getD_eq_default _ _ (Nat.le_of_not_lt hi)]

theorem keptPairs_eq_nil (rate : ℕ) (p y : Signal) (t : ℚ)
    (hno : ∀ i, i < (searchDists rate p y).length →
      t ≤ (searchDists rate p y).getD i 0) :
    keptPairs rate p y t = [] := by
  rw [keptPairs, List.filter_eq_nil_iff]
  intro q hq
  rw [enum_eq_range_map] at hq
  obtain ⟨i, hi, hqe⟩ := List.mem_map.mp hq
  subst hqe
  simp only [decide_eq_true_eq, not_lt]
  exact hno i (List.mem_range.mp hi)

theorem interpolate_err (f : ℚ → ℚ) (n rate : ℕ) (h : n < 3) :
    interpolate f n rate = Except.error UtilError.insufficientData := by
  simp [interpolate, h]

theorem searchDists_ne_nil {rate : ℕ} {p y : Signal}
    (hLM : 1 ≤ (searchDists rate p y).length) :
    (phaseDists (interpOf p rate) (interpOf y rate)).isEmpty = false := by
  refine List.isEmpty_eq_false.mpr ?_
  intro hnil
  rw [searchDists, hnil] at hLM
  simp at hLM

theorem align_pattern_eq (rate : ℕ) (truth generated : Signal)
    (ht : 3 ≤ truth.samples.length) (hg : 3 ≤ generated.samples.length)
    (hLM : 1 ≤ (searchDists rate truth generated).length) :
    align_pattern rate truth generated =
      Except.ok (bestShift rate truth generated,
        coarsePhase (bestShift rate truth generated) rate,
        alignAt (interpOf generated rate) truth.samples.length rate
          (bestShift rate truth generated)) := by
  rw [align_pattern, interpolate_signal_ok truth rate ht,
    interpolate_signal_ok generated rate hg]
  simp only [Bind.bind, Except.bind]
  rw [searchDists_ne_nil hLM]
  rfl

theorem pattern_interpolation_eq (rate : ℕ) (p y : Signal)
    (em : List ℚ → List ℚ → ℚ)
    (hp : 3 ≤ p.samples.length) (hy : 3 ≤ y.samples.length)
    (hLM : 1 ≤ (searchDists rate p y).length) :
    pattern_interpolation rate p y em =
      Except.ok (alignAt (interpOf y rate) p.samples.length rate
          (bestShift rate p y),
        coarsePhase (bestShift rate p y) rate,
        errOf rate p y em (bestShift rate p y)) := by
  rw [pattern_interpolation, interpolate_signal_ok y rate hy,
    interpolate_signal_ok p rate hp]
  simp only [Bind.bind, Except.bind]
  rw [searchDists_ne_nil hLM]
  rfl

theorem find_pattern_interpolation_eq (rate : ℕ) (p y : Signal)
    (nMatches : ℕ) (em : List ℚ → List ℚ → ℚ)
    (hp : 3 ≤ p.samples.length) (hy : 3 ≤ y.samples.length)
    (hLM : 1 ≤ (searchDists rate p y).length) :
    find_pattern_interpolation rate p y nMatches em =
      Except.ok ((rankedPairs rate p y).map (fun q => coarsePhase q.2 rate),
        (rankedPairs rate p y).map (fun q => errOf rate p y em q.2),
        ((rankedPairs rate p y).map (fun q => errOf rate p y em q.2)).sum /
          (((rankedPairs rate p y).map (fun q => errOf rate p y em q.2)).length : ℚ)) := by
  have hlen : (rankedPairs rate p y).length = (searchDists rate p y).length := by
    rw [rankedPairs, (sortByDist_perm _).length_eq, length_matchPairs]
  have hne : (sortByDist (matchPairs (phaseDists (interpOf p rate)
      (interpOf y rate)))).isEmpty = false := by
    refine List.isEmpty_eq_false.mpr ?_
    intro hnil
    have h2 := hlen
    rw [rankedPairs, searchDists] at h2
    rw [hnil] at h2
    simp only [List.length_nil] at h2
    rw [searchDists] at hLM
    omega
  rw [find_pattern_interpolation, interpolate_signal_ok y rate hy,
    interpolate_signal_ok p rate hp]
  simp only [Bind.bind, Except.bind]
  rw [hne]
  rfl

theorem find_pattern_interpolation_threshold_eq (rate : ℕ) (p y : Signal)
    (t : ℚ) (em : List ℚ → List ℚ → ℚ)
    (hp : 3 ≤ p.samples.length) (hy : 3 ≤ y.samples.length) :
    find_pattern_interpolation_threshold rate p y t em =
      Except.ok ((keptPairs rate p y t).map (fun q => coarsePhase q.1 rate),
        (keptPairs rate p y t).map (fun q => errOf rate p y em q.1),
        ((keptPairs rate p y t).map (fun q => errOf rate p y em q.1)).sum /
          (((keptPairs rate p y t).length : ℚ) + 1),
        searchDists rate p y) := by
  rw [find_pattern_interpolation_threshold, interpolate_signal_ok y rate hy,
    interpolate_signal_ok p rate hp]
  simp only [Bind.bind, Except.bind]
  rfl

/-- C1: when the interpolated lengths satisfy L - M ≥ 1, align_pattern and
pattern_interpolation select the phase offset whose window distance is
minimal over all offsets 0 .. L-M-1, and when several offsets tie at the
minimum the smallest offset is returned (every strictly earlier offset has
strictly larger distance). -/
theorem align_pattern_selects_first_min (rate : ℕ) (truth generated : Signal)
    (em : List ℚ → List ℚ → ℚ)
    (ht : 3 ≤ truth.samples.length) (hg : 3 ≤ generated.samples.length)
    (hLM : 1 ≤ (searchDists rate truth generated).length) :
    align_pattern rate truth generated =
      Except.ok (bestShift rate truth generated,
        coarsePhase (bestShift rate truth generated) rate,
        alignAt (interpOf generated rate) truth.samples.length rate
          (bestShift rate truth generated)) ∧
    pattern_interpolation rate truth generated em =
      Except.ok (alignAt (interpOf generated rate) truth.samples.length rate
          (bestShift rate truth generated),
        coarsePhase (bestShift rate truth generated) rate,
        errOf rate truth generated em (bestShift rate truth generated)) ∧
    bestShift rate truth generated < (searchDists rate truth generated).length ∧
    (∀ j, j < (searchDists rate truth generated).length →
      (searchDists rate truth generated).getD (bestShift rate truth generated) 0 ≤
        (searchDists rate truth generated).getD j 0) ∧
    (∀ j, j < bestShift rate truth generated →
      (searchDists rate truth generated).getD (bestShift rate truth generated) 0 <
        (searchDists rate truth generated).getD j 0) := by
  obtain ⟨h1, h2, h3⟩ := argmin_neg_spec (searchDists rate truth generated) hLM
  exact ⟨align_pattern_eq rate truth generated ht hg hLM,
    pattern_interpolation_eq rate truth generated em ht hg hLM, h1, h2, h3⟩

/-- Witness for C1 at rate 1, reference of length 3 and generated signal of
length 6 whose three window distances all tie: the smallest offset wins. -/
theorem align_pattern_selects_first_min_witness :
    (3 ≤ demoTruth.samples.length ∧ 3 ≤ demoGen.samples.length ∧
      1 ≤ (searchDists 1 demoTruth demoGen).length) ∧
    (align_pattern 1 demoTruth demoGen =
      Except.ok (bestShift 1 demoTruth demoGen,
        coarsePhase (bestShift 1 demoTruth demoGen) 1,
        alignAt (interpOf demoGen 1) demoTruth.samples.length 1
          (bestShift 1 demoTruth demoGen)) ∧
    pattern_interpolation 1 demoTruth demoGen (fun _ _ => 0) =
      Except.ok (alignAt (interpOf demoGen 1) demoTruth.samples.length 1
          (bestShift 1 demoTruth demoGen),
        coarsePhase (bestShift 1 demoTruth demoGen) 1,
        errOf 1 demoTruth demoGen (fun _ _ => 0) (bestShift 1 demoTruth demoGen)) ∧
    bestShift 1 demoTruth demoGen < (searchDists 1 demoTruth demoGen).length ∧
    (∀ j, j < (searchDists 1 demoTruth demoGen).length →
      (searchDists 1 demoTruth demoGen).getD (bestShift 1 demoTruth demoGen) 0 ≤
        (searchDists 1 demoTruth demoGen).getD j 0) ∧
    (∀ j, j < bestShift 1 demoTruth demoGen →
      (searchDists 1 demoTruth demoGen).getD (bestShift 1 demoTruth demoGen) 0 <
        (searchDists 1 demoTruth demoGen).getD j 0)) :=
  ⟨⟨by decide, by decide, by decide⟩,
    align_pattern_selects_first_min 1 demoTruth demoGen (fun _ _ => 0)
      (by decide) (by decide) (by decide)⟩

/-- C2 (behavior of the source at the degenerate input): with reference and
generated patterns of equal length the interpolated search space is empty
(L - M = 0); find_pattern_interpolation_threshold silently returns empty
phase and error lists, mean 0 and an empty distance array instead of
failing, and align_pattern fails with the generic argmax-on-empty runtime
error, not a checked invalid-input error (no such error exists in the
source). -/
theorem threshold_silent_on_empty_search_space :
    find_pattern_interpolation_threshold 1 demoEq demoEq 5 (fun _ _ => 0) =
      Except.ok ([], [], 0, []) ∧
    align_pattern 1 demoEq demoEq = Except.error UtilError.emptyArgmax := by
  have hd : phaseDists (interpOf demoEq 1) (interpOf demoEq 1) = [] := rfl
  have hk : keptPairs 1 demoEq demoEq 5 = [] := rfl
  constructor
  · rw [find_pattern_interpolation_threshold_eq 1 demoEq demoEq 5 _
      (by decide) (by decide), hk]
    rw [show searchDists 1 demoEq demoEq = [] from hd]
    norm_num
  · rw [align_pattern, interpolate_signal_ok demoEq 1 (by decide)]
    simp only [Bind.bind, Except.bind]
    rw [hd]
    rfl

/-- C3: the mean error returned by find_pattern_interpolation_threshold is
the sum of the k retained per-match error values divided by k + 1 (the
count is initialized to 1, so the denominator is off by one from the number
of matches). -/
theorem threshold_mean_denominator_off_by_one (rate : ℕ) (p y : Signal)
    (t : ℚ) (em : List ℚ → List ℚ → ℚ)
    (hp : 3 ≤ p.samples.length) (hy : 3 ≤ y.samples.length) :
    ∃ phases norms mean rawd,
      find_pattern_interpolation_threshold rate p y t em =
        Except.ok (phases, norms, mean, rawd) ∧
      norms.length = (keptPairs rate p y t).length ∧
      mean = norms.sum / ((norms.length : ℚ) + 1) := by
  refine ⟨_, _, _, _,
    find_pattern_interpolation_threshold_eq rate p y t em hp hy, ?_, ?_⟩
  · exact List.length_map _ _
  · rw [List.length_map]

/-- Witness for C3: two retained matches with unit error values give mean
2 / 3, not 2 / 2. -/
theorem threshold_mean_denominator_off_by_one_witness :
    (3 ≤ demoTruth.samples.length ∧ 3 ≤ demoRamp.samples.length) ∧
    (∃ phases norms mean rawd,
      find_pattern_interpolation_threshold 1 demoTruth demoRamp 6
          (fun _ _ => 1) = Except.ok (phases, norms, mean, rawd) ∧
      norms.length = (keptPairs 1 demoTruth demoRamp 6).length ∧
      mean = norms.sum / ((norms.length : ℚ) + 1)) :=
  ⟨⟨by decide, by decide⟩,
    threshold_mean_denominator_off_by_one 1 demoTruth demoRamp 6
      (fun _ _ => 1) (by decide) (by decide)⟩

/-- C10: when every distance is at or above the threshold and L - M ≥ 1,
find_pattern_interpolation_threshold does not raise: it returns empty
offset and error lists, a mean of exactly 0 (the 0 / 1 quotient of the
off-by-one counter) and the full array of the L - M distances. -/
theorem threshold_no_matches_graceful (rate : ℕ) (p y : Signal) (t : ℚ)
    (em : List ℚ → List ℚ → ℚ)
    (hp : 3 ≤ p.samples.length) (hy : 3 ≤ y.samples.length)
    (hLM : 1 ≤ (searchDists rate p y).length)
    (hno : ∀ i, i < (searchDists rate p y).length →
      t ≤ (searchDists rate p y).getD i 0) :
    find_pattern_interpolation_threshold rate p y t em =
      Except.ok ([], [], 0, searchDists rate p y) ∧
    (searchDists rate p y).length =
      (interpOf y rate).length - (interpOf p rate).length := by
  have hkept : keptPairs rate p y t = [] := keptPairs_eq_nil rate p y t hno
  constructor
  · rw [find_pattern_interpolation_threshold_eq rate p y t em hp hy, hkept]
    norm_num
  · rw [searchDists, length_phaseDists]

/-- Witness for C10 at threshold 0: every squared window distance is ≥ 0,
so nothing is retained and the mean is exactly 0. -/
theorem threshold_no_matches_graceful_witness :
    (3 ≤ demoTruth.samples.length ∧ 3 ≤ demoRamp.samples.length ∧
      1 ≤ (searchDists 1 demoTruth demoRamp).length ∧
      (∀ i, i < (searchDists 1 demoTruth demoRamp).length →
        (0 : ℚ) ≤ (searchDists 1 demoTruth demoRamp).getD i 0)) ∧
    (find_pattern_interpolation_threshold 1 demoTruth demoRamp 0
        (fun _ _ => 1) = Except.ok ([], [], 0, searchDists 1 demoTruth demoRamp) ∧
    (searchDists 1 demoTruth demoRamp).length =
      (interpOf demoRamp 1).length - (interpOf demoTruth 1).length) :=
  ⟨⟨by decide, by decide, by decide,
      fun i _ => phaseDists_getD_nonneg (interpOf demoTruth 1)
        (interpOf demoRamp 1) i⟩,
    threshold_no_matches_graceful 1 demoTruth demoRamp 0 (fun _ _ => 1)
      (by decide) (by decide) (by decide)
      (fun i _ => phaseDists_getD_nonneg (interpOf demoTruth 1)
        (interpOf demoRamp 1) i)⟩

/-- C4: with L - M ≥ 1, find_pattern_interpolation produces a result for
every one of the L - M candidate offsets whatever n_matches is, ranked by a
stable ascending sort on distance (equal distances keep ascending-offset
order, expressed by the lexicographic pairwise bound together with the
permutation fact), and the returned mean is the arithmetic mean of the
per-candidate error values over all L - M candidates. -/
theorem rank_all_candidates_sorted_stable (rate : ℕ) (p y : Signal)
    (nM : ℕ) (em : List ℚ → List ℚ → ℚ)
    (hp : 3 ≤ p.samples.length) (hy : 3 ≤ y.samples.length)
    (hLM : 1 ≤ (searchDists rate p y).length) :
    ∃ phases norms mean,
      find_pattern_interpolation rate p y nM em =
        Except.ok (phases, norms, mean) ∧
      phases.length = (searchDists rate p y).length ∧
      norms.length = (searchDists rate p y).length ∧
      (rankedPairs rate p y).Perm (matchPairs (searchDists rate p y)) ∧
      (rankedPairs rate p y).Pairwise leLex ∧
      phases = (rankedPairs rate p y).map (fun q => coarsePhase q.2 rate) ∧
      norms = (rankedPairs rate p y).map (fun q => errOf rate p y em q.2) ∧
      mean = ((matchPairs (searchDists rate p y)).map
          (fun q => errOf rate p y em q.2)).sum /
        ((searchDists rate p y).length : ℚ) := by
  have hperm : (rankedPairs rate p y).Perm (matchPairs (searchDists rate p y)) :=
    sortByDist_perm _
  have hlen : (rankedPairs rate p y).length = (searchDists rate p y).length := by
    rw [hperm.length_eq, length_matchPairs]
  refine ⟨_, _, _, find_pattern_interpolation_eq rate p y nM em hp hy hLM,
    ?_, ?_, hperm, sortByDist_pairwise _ (matchPairs_pairwise _), rfl, rfl, ?_⟩
  · rw [List.length_map, hlen]
  · rw [List.length_map, hlen]
  · rw [List.length_map, hlen]
    congr 1
    exact (hperm.map _).sum_eq

/-- Witness for C4 at rate 1, three candidates, n_matches = 1: all three
candidates are still ranked and returned. -/
theorem rank_all_candidates_sorted_stable_witness :
    (3 ≤ demoTruth.samples.length ∧ 3 ≤ demoRamp.samples.length ∧
      1 ≤ (searchDists 1 demoTruth demoRamp).length) ∧
    (∃ phases norms mean,
      find_pattern_interpolation 1 demoTruth demoRamp 1 (fun _ _ => 1) =
        Except.ok (phases, norms, mean) ∧
      phases.length = (searchDists 1 demoTruth demoRamp).length ∧
      norms.length = (searchDists 1 demoTruth demoRamp).length ∧
      (rankedPairs 1 demoTruth demoRamp).Perm
        (matchPairs (searchDists 1 demoTruth demoRamp)) ∧
      (rankedPairs 1 demoTruth demoRamp).Pairwise leLex ∧
      phases = (rankedPairs 1 demoTruth demoRamp).map
        (fun q => coarsePhase q.2 1) ∧
      norms = (rankedPairs 1 demoTruth demoRamp).map
        (fun q => errOf 1 demoTruth demoRamp (fun _ _ => 1) q.2) ∧
      mean = ((matchPairs (searchDists 1 demoTruth demoRamp)).map
          (fun q => errOf 1 demoTruth demoRamp (fun _ _ => 1) q.2)).sum /
        ((searchDists 1 demoTruth demoRamp).length : ℚ)) :=
  ⟨⟨by decide, by decide, by decide⟩,
    rank_all_candidates_sorted_stable 1 demoTruth demoRamp 1 (fun _ _ => 1)
      (by decide) (by decide) (by decide)⟩

/-- C5: with L - M ≥ 1 and any threshold t, the threshold entry point
retains exactly the offsets whose distance is strictly below t, in
ascending-offset order, returns the raw array of all L - M distances, and
in particular retains nothing when t is at or below the minimum distance
and every offset when every distance lies below t. -/
theorem threshold_filter_exact (rate : ℕ) (p y : Signal) (t : ℚ)
    (em : List ℚ → List ℚ → ℚ)
    (hp : 3 ≤ p.samples.length) (hy : 3 ≤ y.samples.length)
    (hLM : 1 ≤ (searchDists rate p y).length) :
    ∃ phases norms mean,
      find_pattern_interpolation_threshold rate p y t em =
        Except.ok (phases, norms, mean, searchDists rate p y) ∧
      (keptPairs rate p y t).map Prod.fst =
        (List.range (searchDists rate p y).length).filter
          (fun i => decide ((searchDists rate p y).getD i 0 < t)) ∧
      phases = ((keptPairs rate p y t).map Prod.fst).map
        (fun i => coarsePhase i rate) ∧
      norms = ((keptPairs rate p y t).map Prod.fst).map
        (fun i => errOf rate p y em i) ∧
      ((∀ i, i < (searchDists rate p y).length →
          t ≤ (searchDists rate p y).getD i 0) →
        phases = [] ∧ norms = []) ∧
      ((∀ i, i < (searchDists rate p y).length →
          (searchDists rate p y).getD i 0 < t) →
        (keptPairs rate p y t).map Prod.fst =
          List.range (searchDists rate p y).length) := by
  refine ⟨_, _, _, find_pattern_interpolation_threshold_eq rate p y t em hp hy,
    kept_map_fst (searchDists rate p y) t, ?_, ?_, ?_, ?_⟩
  · rw [List.map_map]
    rfl
  · rw [List.map_map]
    rfl
  · intro hno
    rw [keptPairs_eq_nil rate p y t hno]
    exact ⟨rfl, rfl⟩
  · intro hall
    rw [keptPairs, kept_map_fst (searchDists rate p y) t]
    apply List.filter_eq_self.mpr
    intro i hi
    simp only [decide_eq_true_eq]
    exact hall i (List.mem_range.mp hi)

/-- Witness for C5 at rate 1 with distances 1, 5, 13 and threshold 6: the
first two offsets are retained in ascending order. -/
theorem threshold_filter_exact_witness :
    (3 ≤ demoTruth.samples.length ∧ 3 ≤ demoRamp.samples.length ∧
      1 ≤ (searchDists 1 demoTruth demoRamp).length) ∧
    (∃ phases norms mean,
      find_pattern_interpolation_threshold 1 demoTruth demoRamp 6
          (fun _ _ => 1) =
        Except.ok (phases, norms, mean, searchDists 1 demoTruth demoRamp) ∧
      (keptPairs 1 demoTruth demoRamp 6).map Prod.fst =
        (List.range (searchDists 1 demoTruth demoRamp).length).filter
          (fun i => decide ((searchDists 1 demoTruth demoRamp).getD i 0 < 6)) ∧
      phases = ((keptPairs 1 demoTruth demoRamp 6).map Prod.fst).map
        (fun i => coarsePhase i 1) ∧
      norms = ((keptPairs 1 demoTruth demoRamp 6).map Prod.fst).map
        (fun i => errOf 1 demoTruth demoRamp (fun _ _ => 1) i) ∧
      ((∀ i, i < (searchDists 1 demoTruth demoRamp).length →
          (6 : ℚ) ≤ (searchDists 1 demoTruth demoRamp).getD i 0) →
        phases = [] ∧ norms = []) ∧
      ((∀ i, i < (searchDists 1 demoTruth demoRamp).length →
          (searchDists 1 demoTruth demoRamp).getD i 0 < 6) →
        (keptPairs 1 demoTruth demoRamp 6).map Prod.fst =
          List.range (searchDists 1 demoTruth demoRamp).length)) :=
  ⟨⟨by decide, by decide, by decide⟩,
    threshold_filter_exact 1 demoTruth demoRamp 6 (fun _ _ => 1)
      (by decide) (by decide) (by decide)⟩

/-- C6: the realigned signal of align_pattern takes every rate-th sample of
the interpolated generated signal starting at the matched offset, has
exactly the reference pattern's original length, and every sampled index
lies within the interpolated generated signal. -/
theorem realigned_length_and_bounds (rate : ℕ) (truth generated : Signal)
    (ht : 3 ≤ truth.samples.length) (hg : 3 ≤ generated.samples.length)
    (hLM : 1 ≤ (searchDists rate truth generated).length) :
    ∃ m c a, align_pattern rate truth generated = Except.ok (m, c, a) ∧
      a = alignAt (interpOf generated rate) truth.samples.length rate m ∧
      a.length = truth.samples.length ∧
      ∀ k, k < truth.samples.length →
        m + k * rate < (interpOf generated rate).length ∧
        a.getD k 0 = (interpOf generated rate).getD (m + k * rate) 0 := by
  obtain ⟨hm, -, -⟩ := argmin_neg_spec (searchDists rate truth generated) hLM
  refine ⟨_, _, _, align_pattern_eq rate truth generated ht hg hLM, rfl,
    length_alignAt _ _ _ _, ?_⟩
  intro k hk
  have hm2 : bestShift rate truth generated <
      (interpOf generated rate).length - (interpOf truth rate).length := by
    rw [searchDists, length_phaseDists] at hm
    exact hm
  refine ⟨alignAt_index_lt (interpOf generated rate).length
    (interpOf truth rate).length truth.samples.length rate
    (bestShift rate truth generated) k (length_interpOf truth rate) hm2 hk,
    getD_alignAt _ _ _ _ _ hk⟩

/-- Witness for C6 at rate 1: the realigned output has the reference's
length 3 and stays inside the five-sample interpolated signal. -/
theorem realigned_length_and_bounds_witness :
    (3 ≤ demoTruth.samples.length ∧ 3 ≤ demoGen.samples.length ∧
      1 ≤ (searchDists 1 demoTruth demoGen).length) ∧
    (∃ m c a, align_pattern 1 demoTruth demoGen = Except.ok (m, c, a) ∧
      a = alignAt (interpOf demoGen 1) demoTruth.samples.length 1 m ∧
      a.length = demoTruth.samples.length ∧
      ∀ k, k < demoTruth.samples.length →
        m + k * 1 < (interpOf demoGen 1).length ∧
        a.getD k 0 = (interpOf demoGen 1).getD (m + k * 1) 0) :=
  ⟨⟨by decide, by decide, by decide⟩,
    realigned_length_and_bounds 1 demoTruth demoGen
      (by decide) (by decide) (by decide)⟩

/-- C7: for a signal of length n ≥ 3 and a positive integer rate, the
interpolated signal is the interpolant evaluated on the grid 0, 1/rate,
2/rate, ... strictly below n - 1, and it has exactly
ceil((n - 1) * rate) = (n - 1) * rate samples. -/
theorem interpolated_length_grid (f : ℚ → ℚ) (n rate : ℕ)
    (hn : 3 ≤ n) (hr : 1 ≤ rate) :
    interpolate f n rate = Except.ok ((interpGrid n rate).map f) ∧
    ((interpGrid n rate).map f).length = (n - 1) * rate ∧
    (((n - 1) * rate : ℕ) : ℤ) = Int.ceil (((n : ℚ) - 1) * (rate : ℚ)) ∧
    ∀ k, k < (n - 1) * rate →
      (interpGrid n rate).getD k 0 = (k : ℚ) / (rate : ℚ) ∧
      (k : ℚ) / (rate : ℚ) < (n : ℚ) - 1 := by
  have hcast : ((n : ℚ) - 1) * (rate : ℚ) = (((n - 1) * rate : ℕ) : ℚ) := by
    push_cast [Nat.cast_sub (show 1 ≤ n by omega)]
    ring
  refine ⟨interpolate_ok f n rate hn, ?_, ?_, ?_⟩
  · rw [List.length_map, length_interpGrid]
  · rw [hcast, Int.ceil_natCast]
  · intro k hk
    have hr0 : (0 : ℚ) < (rate : ℚ) := by exact_mod_cast hr
    constructor
    · rw [List.getD_eq_getElem _ _ (by rw [length_interpGrid]; exact hk)]
      simp [interpGrid]
    · rw [div_lt_iff₀ hr0, hcast]
      exact_mod_cast hk

/-- Witness for C7 with n = 4, rate = 2: six grid points 0, 1/2, 1, 3/2,
2, 5/2, all strictly below 3. -/
theorem interpolated_length_grid_witness :
    (3 ≤ 4 ∧ 1 ≤ 2) ∧
    (interpolate (fun q => q) 4 2 =
        Except.ok ((interpGrid 4 2).map (fun q => q)) ∧
    ((interpGrid 4 2).map (fun q => q)).length = (4 - 1) * 2 ∧
    (((4 - 1) * 2 : ℕ) : ℤ) = Int.ceil (((4 : ℚ) - 1) * (2 : ℚ)) ∧
    ∀ k, k < (4 - 1) * 2 →
      (interpGrid 4 2).getD k 0 = (k : ℚ) / (2 : ℚ) ∧
      (k : ℚ) / (2 : ℚ) < (4 : ℚ) - 1) :=
  ⟨⟨by decide, by decide⟩,
    interpolated_length_grid (fun q => q) 4 2 (by decide) (by decide)⟩

/-- C8: the reported original-rate offset is the matched interpolated
offset divided by the interpolation rate and rounded up, both as the
rational ceiling and as the natural ceiling division (m + rate - 1) / rate,
in align_pattern and in pattern_interpolation. -/
theorem coarse_offset_is_ceiling_div (rate : ℕ) (truth generated : Signal)
    (em : List ℚ → List ℚ → ℚ) (hr : 1 ≤ rate)
    (ht : 3 ≤ truth.samples.length) (hg : 3 ≤ generated.samples.length)
    (hLM : 1 ≤ (searchDists rate truth generated).length) :
    ∃ m c a, align_pattern rate truth generated = Except.ok (m, c, a) ∧
      c = Int.ceil ((m : ℚ) / (rate : ℚ)) ∧
      c = (((m + rate - 1) / rate : ℕ) : ℤ) ∧
      ∃ al er, pattern_interpolation rate truth generated em =
        Except.ok (al, Int.ceil ((m : ℚ) / (rate : ℚ)), er) := by
  refine ⟨_, _, _, align_pattern_eq rate truth generated ht hg hLM, rfl,
    coarsePhase_eq_ceilDiv _ rate hr, ?_⟩
  exact ⟨_, _, pattern_interpolation_eq rate truth generated em ht hg hLM⟩

/-- Witness for C8 at rate 2: ceiling division demonstrated on a genuine
two-fold upsampling. -/
theorem coarse_offset_is_ceiling_div_witness :
    (1 ≤ 2 ∧ 3 ≤ demoTruth.samples.length ∧ 3 ≤ demoGen.samples.length ∧
      1 ≤ (searchDists 2 demoTruth demoGen).length) ∧
    (∃ m c a, align_pattern 2 demoTruth demoGen = Except.ok (m, c, a) ∧
      c = Int.ceil ((m : ℚ) / (2 : ℚ)) ∧
      c = (((m + 2 - 1) / 2 : ℕ) : ℤ) ∧
      ∃ al er, pattern_interpolation 2 demoTruth demoGen (fun _ _ => 0) =
        Except.ok (al, Int.ceil ((m : ℚ) / (2 : ℚ)), er)) :=
  ⟨⟨by decide, by decide, by decide, by decide⟩,
    coarse_offset_is_ceiling_div 2 demoTruth demoGen (fun _ _ => 0)
      (by decide) (by decide) (by decide) (by decide)⟩

/-- C9: a signal with fewer than 3 samples passed to the interpolation step
makes the operation fail with the insufficient-data error (quadratic
interpolation needs at least 3 points). -/
theorem short_signal_interpolation_fails (rate : ℕ) (truth generated : Signal)
    (em : List ℚ → List ℚ → ℚ)
    (h : truth.samples.length < 3 ∨ generated.samples.length < 3) :
    align_pattern rate truth generated =
      Except.error UtilError.insufficientData ∧
    pattern_interpolation rate truth generated em =
      Except.error UtilError.insufficientData := by
  constructor
  · by_cases ht : truth.samples.length < 3
    · rw [align_pattern, interpolate_err truth.interp _ rate ht]
      rfl
    · have hg : generated.samples.length < 3 := by tauto
      rw [align_pattern, interpolate_signal_ok truth rate (Nat.le_of_not_lt ht),
        interpolate_err generated.interp _ rate hg]
      rfl
  · by_cases hy : generated.samples.length < 3
    · rw [pattern_interpolation, interpolate_err generated.interp _ rate hy]
      rfl
    · have hp : truth.samples.length < 3 := by tauto
      rw [pattern_interpolation,
        interpolate_signal_ok generated rate (Nat.le_of_not_lt hy),
        interpolate_err truth.interp _ rate hp]
      rfl

/-- Witness for C9: a two-sample reference makes both entry points fail
with the insufficient-data error. -/
theorem short_signal_interpolation_fails_witness :
    (demoShort.samples.length < 3 ∨ demoGen.samples.length < 3) ∧
    (align_pattern 1 demoShort demoGen =
        Except.error UtilError.insufficientData ∧
    pattern_interpolation 1 demoShort demoGen (fun _ _ => 0) =
        Except.error UtilError.insufficientData) :=
  ⟨Or.inl (by decide),
    short_signal_interpolation_fails 1 demoShort demoGen (fun _ _ => 0)
      (Or.inl (by decide))⟩

end EchoTorch
